import Mathlib

/-!
Verification development for the hawkeye repository.

The repository has two small components:
* `test-suite/application.py` — an `Application` HTTP proxy and an
  `AppURLBuilder` that resolves (app_id, module, version) aliases to URLs;
* `python27-app/taskqueue.py` — webapp2 request handlers delegating to the
  platform task-queue API.

The definitions below are a shallow embedding of that code.  Python strings
are Lean `String`s (operating on `String.data` character lists), the Python
dict used by `AppURLBuilder` is an insertion-ordered association list with
overwrite-on-duplicate-key semantics, exceptions are `Except` errors, and the
external platform / HTTP library is an explicit oracle argument.
-/

deriving instance DecidableEq for Except

namespace Hawkeye

/-! ### Python string primitives used by the code -/

/-- Python `s.lstrip("/")`: drop all leading `/` characters. -/
def lstripSlash (s : String) : String :=
  ⟨s.data.dropWhile (fun c => c = '/')⟩

/-- Python `s.rstrip("/")`: drop all trailing `/` characters. -/
def rstripSlash (s : String) : String :=
  ⟨(s.data.reverse.dropWhile (fun c => c = '/')).reverse⟩

/-- Errors raised by Python `str.format`: a lone closing brace, an unclosed
opening brace, or a replacement field referring to an unknown name (KeyError).
-/
inductive FormatError
  | singleClose
  | singleOpen
  | unknownField (name : String)
deriving DecidableEq, Repr

/-- One pass of Python `path.format(lang=language)` over the character list,
for the simple named replacement fields the test-suite uses.  The first
argument is the scanner mode: `none` means plain text, `some acc` means we are
inside a replacement field with (reversed) accumulated field name `acc`.
`"\x7b\x7b"` and `"\x7d\x7d"` are escapes for literal braces; the only known
keyword is `lang`; any other field name raises (Python KeyError). -/
def fmtGo (lang : String) : Option (List Char) → List Char → Except FormatError (List Char)
  | none, [] => Except.ok []
  | some _, [] => Except.error FormatError.singleOpen
  | none, c :: rest =>
    if c = '{' then
      match rest with
      | [] => Except.error FormatError.singleOpen
      | c2 :: rest2 =>
        if c2 = '{' then (fmtGo lang none rest2).map (fun r => '{' :: r)
        else fmtGo lang (some []) (c2 :: rest2)
    else if c = '}' then
      match rest with
      | [] => Except.error FormatError.singleClose
      | c2 :: rest2 =>
        if c2 = '}' then (fmtGo lang none rest2).map (fun r => '}' :: r)
        else Except.error FormatError.singleClose
    else (fmtGo lang none rest).map (fun r => c :: r)
  | some acc, c :: rest =>
    if c = '}' then
      if acc.reverse = ['l', 'a', 'n', 'g'] then
        (fmtGo lang none rest).map (fun r => lang.data ++ r)
      else Except.error (FormatError.unknownField ⟨acc.reverse⟩)
    else fmtGo lang (some (c :: acc)) rest

/-- Python `path.format(lang=language)`. -/
def pyFormatLang (path lang : String) : Except FormatError String :=
  (fmtGo lang none path.data).map (fun cs => ⟨cs⟩)

/-! ### Data model -/

/-- Modelled from the spec: the `AppVersion` record of `application_versions.py`
(that file is not part of the sources; the spec's §3 DATA MODEL gives its
shape): application id, module name, version name, http URL, https URL, and
the two default flags. -/
structure AppVersion where
  app_id : String
  module : String
  version : String
  http_url : String
  https_url : String
  is_default_for_module : Bool
  is_default_module : Bool
deriving DecidableEq, Repr

/-- Modelled from the spec: `AppVersion.get_version_alias` of
`application_versions.py` (missing from the sources).  The spec's §3 and §4.1
give the three key shapes: with both module and version the full key
`"<version>.<module>.<app>"`, with only a module the module-default key
`"<module>.<app>"`, and with neither the app-default key `"<app>"`.  The spec
does not define the shape for an absent module with a present version; that
combination is never used and falls to the app-default shape here. -/
def get_version_alias (app_id : String) (module version : Option String) : String :=
  match module, version with
  | some m, some v => v ++ "." ++ m ++ "." ++ app_id
  | some m, none => m ++ "." ++ app_id
  | none, _ => app_id

/-- Modelled from the spec: `AppVersion.full_name` (missing from the sources)
is the full alias key `"<version>.<module>.<app>"` of the version. -/
def AppVersion.full_name (v : AppVersion) : String :=
  get_version_alias v.app_id (some v.module) (some v.version)

/-! ### The versions dict

`AppURLBuilder._versions_dict` is a Python dict with string keys.  We embed it
as an insertion-ordered association list whose inserts overwrite the value of
an existing key in place (Python dict assignment semantics). -/

abbrev VersionsDict := List (String × AppVersion)

/-- Python `d[k] = v`: overwrite in place if the key exists, else append. -/
def dictInsert (d : VersionsDict) (k : String) (v : AppVersion) : VersionsDict :=
  if d.any (fun p => p.1 == k) then
    d.map (fun p => if p.1 == k then (k, v) else p)
  else d ++ [(k, v)]

/-- Python `d.get(k)`. -/
def dictGet (d : VersionsDict) (k : String) : Option AppVersion :=
  (d.find? (fun p => p.1 == k)).map (fun p => p.2)

/-- The key list of the dict (Python `list(d)`). -/
def dictKeys (d : VersionsDict) : List String :=
  d.map (fun p => p.1)

/-- Insert every version of `L` into the dict, keyed by `key v`, in list
order.  This is what a Python dict comprehension followed by `dict.update`
amounts to. -/
def insertAll (key : AppVersion → String) (L : List AppVersion) (d : VersionsDict) :
    VersionsDict :=
  L.foldl (fun d v => dictInsert d (key v) v) d

/-- The `ImproperVersionsList` exception of `application.py`. -/
inductive InitError
  | improperVersionsList (msg : String)
deriving DecidableEq, Repr

/-- Exceptions escaping `AppURLBuilder.build_url`: the `UnknownVersion`
exception of `application.py`, or an error raised by `path.format`. -/
inductive UrlError
  | unknownVersion (msg : String)
  | formatError (e : FormatError)
deriving DecidableEq, Repr

/-- The `AppURLBuilder` object after a successful `__init__`. -/
structure AppURLBuilder where
  language : String
  versions_dict : VersionsDict
deriving DecidableEq, Repr

/-- `AppURLBuilder.__init__` (application.py:185-230).  Counts distinct module
names against versions flagged default-for-module, raising
`ImproperVersionsList` on mismatch, then fills the dict with full keys, then
module-default keys, then app-default keys. -/
def AppURLBuilder.make (app_versions : List AppVersion) (language : String) :
    Except InitError AppURLBuilder :=
  let modules := (app_versions.map AppVersion.module).dedup
  let module_default_versions := app_versions.filter (fun v => v.is_default_for_module)
  let app_default_versions := module_default_versions.filter (fun v => v.is_default_module)
  if modules.length ≠ module_default_versions.length then
    Except.error (InitError.improperVersionsList "Some of modules doesn\x27t have default version")
  else
    Except.ok ⟨language,
      insertAll (fun v => get_version_alias v.app_id none none) app_default_versions
        (insertAll (fun v => get_version_alias v.app_id (some v.module) none)
          module_default_versions
          (insertAll AppVersion.full_name app_versions []))⟩

/-- `None` and strings as rendered by `str.format` in the `UnknownVersion`
message. -/
def pyShowOpt : Option String → String
  | none => "None"
  | some s => s

/-- Lexicographic comparison of character lists, mirroring Python 2 byte-wise
string comparison. -/
def lexLe : List Char → List Char → Bool
  | [], _ => true
  | _ :: _, [] => false
  | a :: as, b :: bs => if a < b then true else if a = b then lexLe as bs else false

/-- Python `a <= b` on strings: byte-wise lexicographic order. -/
def stringLe (a b : String) : Bool := lexLe a.data b.data

/-- Python `sorted(self._versions_dict)`: the dict's keys sorted
lexicographically. -/
def sortedKeys (d : VersionsDict) : List String :=
  List.insertionSort (fun a b => stringLe a b = true) (dictKeys d)

/-- The `UnknownVersion` exception message of `build_url`
(application.py:259-263). -/
def unknownMsg (module version : Option String) (d : VersionsDict) : String :=
  "Unknown version \x27" ++ pyShowOpt version ++ "\x27 for module \x27" ++
    pyShowOpt module ++ "\x27. Available versions are:\n  " ++
    String.intercalate "\n  " (sortedKeys d)

/-- `AppURLBuilder.build_url` (application.py:232-270): substitute the
language into the path, build the alias key, look it up (raising
`UnknownVersion` with the sorted key listing when absent), pick the https or
http base URL and join base and path with a single slash. -/
def AppURLBuilder.build_url (b : AppURLBuilder) (app_id path : String)
    (module version : Option String) (https : Bool) : Except UrlError String :=
  match pyFormatLang path b.language with
  | Except.error e => Except.error (UrlError.formatError e)
  | Except.ok path2 =>
    match dictGet b.versions_dict (get_version_alias app_id module version) with
    | none => Except.error (UrlError.unknownVersion (unknownMsg module version b.versions_dict))
    | some v =>
      Except.ok (rstripSlash (if https then v.https_url else v.http_url) ++ "/" ++
        lstripSlash path2)

/-! ### The claim-side description of language substitution -/

/-- `OnlyLang lang cs out` holds when `cs` contains no brace characters except
as part of literal occurrences of the language placeholder, and `out` is `cs`
with every placeholder occurrence replaced by the characters of `lang`:
exactly "path with the placeholder replaced by the builder's language". -/
inductive OnlyLang (lang : String) : List Char → List Char → Prop
  | nil : OnlyLang lang [] []
  | plain (c : Char) (cs out : List Char) (hc1 : c ≠ '{') (hc2 : c ≠ '}') :
      OnlyLang lang cs out → OnlyLang lang (c :: cs) (c :: out)
  | placeholder (cs out : List Char) :
      OnlyLang lang cs out →
      OnlyLang lang ('{' :: 'l' :: 'a' :: 'n' :: 'g' :: '}' :: cs) (lang.data ++ out)

/-- On brace-clean paths, Python `format` computes exactly the claimed
placeholder substitution. -/
theorem fmtGo_of_onlyLang (lang : String) :
    ∀ (cs out : List Char), OnlyLang lang cs out → fmtGo lang none cs = Except.ok out := by
  intro cs out h
  induction h with
  | nil => rfl
  | plain c cs out hc1 hc2 h ih =>
    conv_lhs => unfold fmtGo
    rw [if_neg hc1, if_neg hc2, ih]
    rfl
  | placeholder cs out h ih =>
    have step : fmtGo lang none ('{' :: 'l' :: 'a' :: 'n' :: 'g' :: '}' :: cs) =
        (fmtGo lang none cs).map (fun r => lang.data ++ r) := rfl
    rw [step, ih]
    rfl

/-! ### Dictionary lemmas -/

theorem dictGet_nil (k : String) : dictGet [] k = none := rfl

theorem find?_map_replace (d : VersionsDict) (k : String) (v : AppVersion)
    (k' : String) (h : k' ≠ k) :
    (d.map (fun p => if p.1 == k then (k, v) else p)).find? (fun p => p.1 == k') =
      d.find? (fun p => p.1 == k') := by
  induction d with
  | nil => rfl
  | cons q d ih =>
    by_cases hq : q.1 = k
    · rw [List.map_cons, if_pos (by simp [hq]),
        List.find?_cons_of_neg _ (by simp [Ne.symm h]),
        List.find?_cons_of_neg _ (by simp [hq, Ne.symm h]), ih]
    · rw [List.map_cons, if_neg (by simp [hq])]
      by_cases hqk : q.1 = k'
      · rw [List.find?_cons_of_pos _ (by simp [hqk]), List.find?_cons_of_pos _ (by simp [hqk])]
      · rw [List.find?_cons_of_neg _ (by simp [hqk]), List.find?_cons_of_neg _ (by simp [hqk]),
          ih]

theorem dictGet_dictInsert_of_ne (d : VersionsDict) (k : String) (v : AppVersion)
    (k' : String) (h : k' ≠ k) :
    dictGet (dictInsert d k v) k' = dictGet d k' := by
  unfold dictInsert dictGet
  by_cases hany : d.any (fun p => p.1 == k) = true
  · rw [if_pos hany, find?_map_replace d k v k' h]
  · rw [if_neg hany, List.find?_append]
    cases hfind : d.find? (fun p => p.1 == k') with
    | some p => rw [Option.or_some]
    | none =>
      rw [Option.none_or, List.find?_cons_of_neg _ (by simp [Ne.symm h]), List.find?_nil]

theorem find?_map_replace_self (d : VersionsDict) (k : String) (v : AppVersion) :
    (d.map (fun p => if p.1 == k then (k, v) else p)).find? (fun p => p.1 == k) =
      if d.any (fun p => p.1 == k) then some (k, v) else none := by
  induction d with
  | nil => rfl
  | cons q d ih =>
    by_cases hq : q.1 = k
    · rw [List.map_cons, if_pos (by simp [hq]), List.find?_cons_of_pos _ (by simp),
        if_pos (by simp [List.any_cons, hq])]
    · have hq' : (q.1 == k) = false := by simp [hq]
      rw [List.map_cons, if_neg (by simp [hq]), List.find?_cons_of_neg _ (by simp [hq]), ih,
        List.any_cons, hq', Bool.false_or]

theorem dictGet_dictInsert_self (d : VersionsDict) (k : String) (v : AppVersion) :
    dictGet (dictInsert d k v) k = some v := by
  unfold dictInsert dictGet
  by_cases hany : d.any (fun p => p.1 == k) = true
  · rw [if_pos hany, find?_map_replace_self, if_pos hany]
    rfl
  · rw [if_neg hany, List.find?_append]
    have hd : d.find? (fun p => p.1 == k) = none := by
      rw [List.find?_eq_none]
      intro p hp hc
      exact hany (List.any_eq_true.mpr ⟨p, hp, hc⟩)
    rw [hd, Option.none_or, List.find?_cons_of_pos _ (by simp)]
    rfl

theorem dictKeys_dictInsert (d : VersionsDict) (k : String) (v : AppVersion) :
    dictKeys (dictInsert d k v) =
      if k ∈ dictKeys d then dictKeys d else dictKeys d ++ [k] := by
  unfold dictInsert dictKeys
  by_cases hmem : k ∈ d.map (fun p => p.1)
  · have hany : d.any (fun p => p.1 == k) = true := by
      obtain ⟨p, hp, hpk⟩ := List.mem_map.mp hmem
      exact List.any_eq_true.mpr ⟨p, hp, by simp [hpk]⟩
    rw [if_pos hany, if_pos hmem, List.map_map]
    apply List.map_congr_left
    intro p _
    by_cases h : p.1 = k
    · simp [h]
    · simp [h]
  · have hany : ¬ d.any (fun p => p.1 == k) = true := by
      intro hc
      obtain ⟨p, hp, hpk⟩ := List.any_eq_true.mp hc
      exact hmem (List.mem_map.mpr ⟨p, hp, by simpa using hpk⟩)
    rw [if_neg hany, if_neg hmem, List.map_append]
    rfl

theorem mem_dictKeys_dictInsert (d : VersionsDict) (k : String) (v : AppVersion)
    (k' : String) :
    k' ∈ dictKeys (dictInsert d k v) ↔ k' ∈ dictKeys d ∨ k' = k := by
  rw [dictKeys_dictInsert]
  by_cases hmem : k ∈ dictKeys d
  · rw [if_pos hmem]
    constructor
    · exact Or.inl
    · rintro (h | rfl)
      · exact h
      · exact hmem
  · rw [if_neg hmem, List.mem_append, List.mem_singleton]

theorem nodup_dictKeys_dictInsert (d : VersionsDict) (k : String) (v : AppVersion)
    (h : (dictKeys d).Nodup) : (dictKeys (dictInsert d k v)).Nodup := by
  rw [dictKeys_dictInsert]
  by_cases hmem : k ∈ dictKeys d
  · rwa [if_pos hmem]
  · rw [if_neg hmem]
    exact List.Nodup.append h (List.nodup_singleton k) (by simpa using hmem)

theorem length_dictKeys (d : VersionsDict) : (dictKeys d).length = d.length :=
  List.length_map d _

/-! ### insertAll lemmas -/

theorem dictGet_insertAll_of_not_mem (key : AppVersion → String) (L : List AppVersion)
    (d : VersionsDict) (k : String) (h : ∀ v ∈ L, key v ≠ k) :
    dictGet (insertAll key L d) k = dictGet d k := by
  induction L generalizing d with
  | nil => rfl
  | cons w L ih =>
    unfold insertAll at ih ⊢
    rw [List.foldl_cons, ih _ (fun v hv => h v (List.mem_cons_of_mem _ hv)),
      dictGet_dictInsert_of_ne _ _ _ _ (Ne.symm (h w (List.mem_cons_self _ _)))]

theorem dictGet_insertAll_preserve (key : AppVersion → String) (L : List AppVersion)
    (d : VersionsDict) (k : String) (v : AppVersion)
    (hd : dictGet d k = some v) (huniq : ∀ w ∈ L, key w = k → w = v) :
    dictGet (insertAll key L d) k = some v := by
  induction L generalizing d with
  | nil => exact hd
  | cons w L ih =>
    unfold insertAll at ih ⊢
    rw [List.foldl_cons]
    apply ih
    · by_cases hw : key w = k
      · have hwv := huniq w (List.mem_cons_self _ _) hw
        subst hwv
        rw [hw, dictGet_dictInsert_self]
      · rw [dictGet_dictInsert_of_ne _ _ _ _ (Ne.symm hw)]
        exact hd
    · exact fun u hu => huniq u (List.mem_cons_of_mem _ hu)

theorem dictGet_insertAll_of_unique (key : AppVersion → String) :
    ∀ (L : List AppVersion) (d : VersionsDict) (k : String) (v : AppVersion),
      v ∈ L → key v = k → (∀ w ∈ L, key w = k → w = v) →
      dictGet (insertAll key L d) k = some v := by
  intro L
  induction L with
  | nil => intro d k v hv _ _; cases hv
  | cons w L ih =>
    intro d k v hv hk huniq
    unfold insertAll at ih ⊢
    rw [List.foldl_cons]
    by_cases hw : key w = k
    · have hwv : w = v := huniq w (List.mem_cons_self _ _) hw
      subst hwv
      exact dictGet_insertAll_preserve key L _ k w
        (by rw [hk, dictGet_dictInsert_self])
        (fun u hu hku => huniq u (List.mem_cons_of_mem _ hu) hku)
    · rcases List.mem_cons.mp hv with rfl | hv'
      · exact absurd hk hw
      · exact ih _ k v hv' hk (fun u hu hku => huniq u (List.mem_cons_of_mem _ hu) hku)

theorem mem_dictKeys_insertAll (key : AppVersion → String) (L : List AppVersion)
    (d : VersionsDict) (k : String) :
    k ∈ dictKeys (insertAll key L d) ↔ k ∈ dictKeys d ∨ ∃ v ∈ L, key v = k := by
  induction L generalizing d with
  | nil => simp [insertAll]
  | cons w L ih =>
    unfold insertAll at ih ⊢
    rw [List.foldl_cons, ih, mem_dictKeys_dictInsert]
    constructor
    · rintro ((h | rfl) | ⟨u, hu, rfl⟩)
      · exact Or.inl h
      · exact Or.inr ⟨w, List.mem_cons_self _ _, rfl⟩
      · exact Or.inr ⟨u, List.mem_cons_of_mem _ hu, rfl⟩
    · rintro (h | ⟨u, hu, rfl⟩)
      · exact Or.inl (Or.inl h)
      · rcases List.mem_cons.mp hu with rfl | hu'
        · exact Or.inl (Or.inr rfl)
        · exact Or.inr ⟨u, hu', rfl⟩

theorem nodup_dictKeys_insertAll (key : AppVersion → String) (L : List AppVersion)
    (d : VersionsDict) (h : (dictKeys d).Nodup) :
    (dictKeys (insertAll key L d)).Nodup := by
  induction L generalizing d with
  | nil => exact h
  | cons w L ih =>
    unfold insertAll at ih ⊢
    rw [List.foldl_cons]
    exact ih _ (nodup_dictKeys_dictInsert _ _ _ h)

theorem toFinset_dictKeys_insertAll (key : AppVersion → String) (L : List AppVersion)
    (d : VersionsDict) :
    (dictKeys (insertAll key L d)).toFinset =
      (dictKeys d).toFinset ∪ (L.map key).toFinset := by
  ext k
  simp [mem_dictKeys_insertAll]

/-! ### Characterization of make and build_url -/

theorem lexLe_total : ∀ as bs : List Char, lexLe as bs = true ∨ lexLe bs as = true := by
  intro as
  induction as with
  | nil => intro bs; exact Or.inl rfl
  | cons a as ih =>
    intro bs
    cases bs with
    | nil => exact Or.inr rfl
    | cons b bs =>
      rcases lt_trichotomy a b with h | h | h
      · exact Or.inl (by simp [lexLe, h])
      · subst h
        rcases ih bs with h' | h'
        · exact Or.inl (by simp [lexLe, h'])
        · exact Or.inr (by simp [lexLe, h'])
      · exact Or.inr (by simp [lexLe, h])

theorem lexLe_trans :
    ∀ as bs cs : List Char, lexLe as bs = true → lexLe bs cs = true →
      lexLe as cs = true := by
  intro as
  induction as with
  | nil => intro bs cs _ _; rfl
  | cons a as ih =>
    intro bs cs h1 h2
    cases bs with
    | nil => simp [lexLe] at h1
    | cons b bs =>
      cases cs with
      | nil => simp [lexLe] at h2
      | cons c cs =>
        simp only [lexLe] at h1 h2 ⊢
        by_cases hab : a < b
        · by_cases hbc : b < c
          · simp [lt_trans hab hbc]
          · by_cases hbc' : b = c
            · simp [hbc' ▸ hab]
            · simp [hbc, hbc'] at h2
        · by_cases hab' : a = b
          · subst hab'
            by_cases hbc : a < c
            · simp [hbc]
            · by_cases hbc' : a = c
              · subst hbc'
                simp [lt_irrefl] at h1 h2 ⊢
                exact ih bs cs h1 h2
              · simp [hbc, hbc'] at h2
          · simp [hab, hab'] at h1

instance : IsTotal String (fun a b => stringLe a b = true) :=
  ⟨fun a b => lexLe_total a.data b.data⟩

instance : IsTrans String (fun a b => stringLe a b = true) :=
  ⟨fun a b c => lexLe_trans a.data b.data c.data⟩

theorem sortedKeys_perm (d : VersionsDict) : (sortedKeys d).Perm (dictKeys d) :=
  List.perm_insertionSort _ _

theorem sortedKeys_sorted (d : VersionsDict) :
    (sortedKeys d).Sorted (fun a b => stringLe a b = true) :=
  List.sorted_insertionSort _ _

theorem build_url_ok (b : AppURLBuilder) (app_id path : String)
    (module version : Option String) (https : Bool) (path2 : String) (v : AppVersion)
    (hfmt : pyFormatLang path b.language = Except.ok path2)
    (hget : dictGet b.versions_dict (get_version_alias app_id module version) = some v) :
    b.build_url app_id path module version https =
      Except.ok (rstripSlash (if https then v.https_url else v.http_url) ++ "/" ++
        lstripSlash path2) := by
  simp only [AppURLBuilder.build_url, hfmt, hget]

theorem build_url_unknown (b : AppURLBuilder) (app_id path : String)
    (module version : Option String) (https : Bool) (path2 : String)
    (hfmt : pyFormatLang path b.language = Except.ok path2)
    (hget : dictGet b.versions_dict (get_version_alias app_id module version) = none) :
    b.build_url app_id path module version https =
      Except.error (UrlError.unknownVersion (unknownMsg module version b.versions_dict)) := by
  simp only [AppURLBuilder.build_url, hfmt, hget]

theorem build_url_fmt_error (b : AppURLBuilder) (app_id path : String)
    (module version : Option String) (https : Bool) (e : FormatError)
    (hfmt : pyFormatLang path b.language = Except.error e) :
    b.build_url app_id path module version https =
      Except.error (UrlError.formatError e) := by
  simp only [AppURLBuilder.build_url, hfmt]

/-- The dict built by a successful construction. -/
def builtDict (avs : List AppVersion) : VersionsDict :=
  insertAll (fun v => get_version_alias v.app_id none none)
    ((avs.filter (fun v => v.is_default_for_module)).filter (fun v => v.is_default_module))
    (insertAll (fun v => get_version_alias v.app_id (some v.module) none)
      (avs.filter (fun v => v.is_default_for_module))
      (insertAll AppVersion.full_name avs []))

theorem make_ok_dict (avs : List AppVersion) (lang : String)
    (h : (avs.map AppVersion.module).dedup.length =
      (avs.filter (fun v => v.is_default_for_module)).length) :
    AppURLBuilder.make avs lang = Except.ok ⟨lang, builtDict avs⟩ := by
  simp only [AppURLBuilder.make, builtDict]
  rw [if_neg (fun hne => hne h)]

theorem make_eq_error_of_ne (avs : List AppVersion) (lang : String)
    (h : (avs.map AppVersion.module).dedup.length ≠
      (avs.filter (fun v => v.is_default_for_module)).length) :
    AppURLBuilder.make avs lang =
      Except.error (InitError.improperVersionsList
        "Some of modules doesn\x27t have default version") := by
  simp only [AppURLBuilder.make]
  rw [if_pos h]

theorem make_eq_error_iff (avs : List AppVersion) (lang : String) :
    (∃ msg, AppURLBuilder.make avs lang = Except.error (InitError.improperVersionsList msg)) ↔
      (avs.map AppVersion.module).dedup.length ≠
        (avs.filter (fun v => v.is_default_for_module)).length := by
  by_cases h : (avs.map AppVersion.module).dedup.length =
      (avs.filter (fun v => v.is_default_for_module)).length
  · rw [make_ok_dict avs lang h]
    simp [h]
  · rw [make_eq_error_of_ne avs lang h]
    simp [h]

/-! ### Claim theorems -/

/-- C2: `AppURLBuilder` construction raises `ImproperVersionsList` if and only
if the number of distinct module names appearing in the input version list
differs from the number of versions flagged default-for-module; when the two
counts are equal, construction completes without error. -/
theorem make_improper_iff_counts_differ (avs : List AppVersion) (lang : String) :
    ((∃ msg, AppURLBuilder.make avs lang =
        Except.error (InitError.improperVersionsList msg)) ↔
      (avs.map AppVersion.module).toFinset.card ≠
        (avs.filter (fun v => v.is_default_for_module)).length) ∧
    ((avs.map AppVersion.module).toFinset.card =
        (avs.filter (fun v => v.is_default_for_module)).length →
      ∃ b, AppURLBuilder.make avs lang = Except.ok b) := by
  rw [List.card_toFinset]
  exact ⟨make_eq_error_iff avs lang, fun h => ⟨_, make_ok_dict avs lang h⟩⟩

/-- C1: for every constructed `AppURLBuilder` and every (app_id, module,
version) whose alias key is present in the mapping, `build_url` returns
base plus a single slash plus the transformed path, where base is the
version's https URL (when https is true) or http URL (otherwise) with all
trailing slashes stripped, and the transformed path is the input path with
the language placeholder replaced by the builder's language and all leading
slashes stripped. -/
theorem build_url_of_known_key (avs : List AppVersion) (lang : String)
    (b : AppURLBuilder) (hmk : AppURLBuilder.make avs lang = Except.ok b)
    (app_id path : String) (module version : Option String) (https : Bool)
    (subst : List Char) (hpath : OnlyLang b.language path.data subst)
    (v : AppVersion)
    (hget : dictGet b.versions_dict (get_version_alias app_id module version) = some v) :
    b.build_url app_id path module version https =
      Except.ok (rstripSlash (if https then v.https_url else v.http_url) ++ "/" ++
        lstripSlash ⟨subst⟩) :=
  build_url_ok b app_id path module version https ⟨subst⟩ v
    (by unfold pyFormatLang; rw [fmtGo_of_onlyLang _ _ _ hpath]; rfl) hget

/-- A one-version configuration used to instantiate the theorems on concrete
data. -/
def sampleVersion : AppVersion :=
  ⟨"appx", "mod", "v1", "http://h:8080/", "https://h:8443", true, true⟩

/-- The builder constructed from the one-version configuration with
language "py". -/
def sampleBuilder : AppURLBuilder := ⟨"py", builtDict [sampleVersion]⟩

theorem sampleOnlyLang : OnlyLang "py" "/{lang}/x".data "/py/x".data := by
  show OnlyLang "py" ['/', '{', 'l', 'a', 'n', 'g', '}', '/', 'x'] ['/', 'p', 'y', '/', 'x']
  have h1 : OnlyLang "py" ['x'] ['x'] :=
    OnlyLang.plain 'x' [] [] (by decide) (by decide) OnlyLang.nil
  have h2 : OnlyLang "py" ['/', 'x'] ['/', 'x'] :=
    OnlyLang.plain '/' _ _ (by decide) (by decide) h1
  have h3 : OnlyLang "py" ['{', 'l', 'a', 'n', 'g', '}', '/', 'x'] ("py".data ++ ['/', 'x']) :=
    OnlyLang.placeholder _ _ h2
  exact OnlyLang.plain '/' _ _ (by decide) (by decide) h3

/-- Witness for C1: on the one-version configuration, language "py" and path
"/\x7blang\x7d/x", the result's path segment is "/py/x". -/
theorem build_url_of_known_key_witness :
    AppURLBuilder.make [sampleVersion] "py" = Except.ok sampleBuilder ∧
    sampleBuilder.build_url "appx" "/{lang}/x" (some "mod") (some "v1") false =
      Except.ok "http://h:8080/py/x" :=
  ⟨make_ok_dict [sampleVersion] "py" (by decide),
   (build_url_of_known_key [sampleVersion] "py" sampleBuilder
      (make_ok_dict [sampleVersion] "py" (by decide))
      "appx" "/{lang}/x" (some "mod") (some "v1") false "/py/x".data
      sampleOnlyLang sampleVersion (by decide)).trans (by decide)⟩

/-- C5: for every constructed builder, when the lookup key is absent from the
alias mapping, `build_url` raises `UnknownVersion`, and the exception message
lists all keys of the mapping sorted lexicographically (the listed key list is
a sorted permutation of the mapping's keys). -/
theorem build_url_unknown_version_sorted (avs : List AppVersion) (lang : String)
    (b : AppURLBuilder) (hmk : AppURLBuilder.make avs lang = Except.ok b)
    (app_id path path2 : String) (module version : Option String) (https : Bool)
    (hfmt : pyFormatLang path b.language = Except.ok path2)
    (hget : dictGet b.versions_dict (get_version_alias app_id module version) = none) :
    b.build_url app_id path module version https =
      Except.error (UrlError.unknownVersion
        ("Unknown version \x27" ++ pyShowOpt version ++ "\x27 for module \x27" ++
          pyShowOpt module ++ "\x27. Available versions are:\n  " ++
          String.intercalate "\n  " (sortedKeys b.versions_dict))) ∧
    (sortedKeys b.versions_dict).Perm (dictKeys b.versions_dict) ∧
    (sortedKeys b.versions_dict).Sorted (fun a c => stringLe a c = true) :=
  ⟨build_url_unknown b app_id path module version https path2 hfmt hget,
   sortedKeys_perm b.versions_dict, sortedKeys_sorted b.versions_dict⟩

/-- Witness for C5: an absent key on the one-version configuration produces
the UnknownVersion message listing the three keys in sorted order. -/
theorem build_url_unknown_version_sorted_witness :
    sampleBuilder.build_url "appx" "/x" (some "nope") (some "v9") false =
      Except.error (UrlError.unknownVersion
        "Unknown version \x27v9\x27 for module \x27nope\x27. Available versions are:\n  appx\n  mod.appx\n  v1.mod.appx") :=
  ((build_url_unknown_version_sorted [sampleVersion] "py" sampleBuilder
      (make_ok_dict [sampleVersion] "py" (by decide))
      "appx" "/x" "/x" (some "nope") (some "v9") false rfl (by decide)).1).trans
    (by decide)

/-- C10: the language substitution is applied to the path before the alias
lookup; hence whenever formatting the path fails (a replacement field other
than the language placeholder, or an unbalanced brace), `build_url` raises
that formatting error and never `UnknownVersion`, regardless of whether the
alias key is present. -/
theorem build_url_format_error_precedes (b : AppURLBuilder) (app_id path : String)
    (module version : Option String) (https : Bool) (e : FormatError)
    (hfmt : pyFormatLang path b.language = Except.error e) :
    b.build_url app_id path module version https =
      Except.error (UrlError.formatError e) ∧
    ∀ msg, b.build_url app_id path module version https ≠
      Except.error (UrlError.unknownVersion msg) := by
  have h := build_url_fmt_error b app_id path module version https e hfmt
  exact ⟨h, fun msg hc => by rw [h] at hc; exact UrlError.noConfusion (Except.error.inj hc)⟩

/-- Witness for C10: a path with an unknown replacement field raises the
format error even though the alias key is present in the mapping. -/
theorem build_url_format_error_precedes_witness :
    dictGet sampleBuilder.versions_dict
      (get_version_alias "appx" (some "mod") (some "v1")) = some sampleVersion ∧
    sampleBuilder.build_url "appx" "/{oops}/x" (some "mod") (some "v1") false =
      Except.error (UrlError.formatError (FormatError.unknownField "oops")) :=
  ⟨by decide,
   (build_url_format_error_precedes sampleBuilder "appx" "/{oops}/x" (some "mod")
      (some "v1") false (FormatError.unknownField "oops") (by decide)).1⟩

/-! ### The Application proxy (application.py) -/

/-- An HTTP response from the requests library (only the shape the claims
need). -/
structure Response where
  status_code : Nat
  content : String
deriving DecidableEq, Repr

/-- The `Application` object: an app id bound to a url builder. -/
structure Application where
  app_id : String
  url_builder : AppURLBuilder

/-- `Application.build_url` (application.py:171-173). -/
def Application.build_url (a : Application) (path : String)
    (module version : Option String) (https : Bool) : Except UrlError String :=
  a.url_builder.build_url a.app_id path module version https

/-- `Application.logged_request` (application.py:108-136): build the URL,
perform the HTTP request through the `net` oracle (method, url), log it, and
return the response object; an exception from `build_url` propagates. -/
def Application.logged_request (a : Application) (net : String → String → Response)
    (method path : String) (module version : Option String) (https : Bool) :
    Except UrlError Response :=
  (a.build_url path module version https).map (fun url => net method url)

/-- `Application.get` (application.py:40-55): calls `logged_request` without
returning its result, so a completed call returns Python `None`. -/
def Application.get (a : Application) (net : String → String → Response)
    (path : String) (module version : Option String) (https : Bool) :
    Except UrlError (Option Response) :=
  (a.logged_request net "get" path module version https).map (fun _ => none)

/-- `Application.post` (application.py:57-72). -/
def Application.post (a : Application) (net : String → String → Response)
    (path : String) (module version : Option String) (https : Bool) :
    Except UrlError (Option Response) :=
  (a.logged_request net "post" path module version https).map (fun _ => none)

/-- `Application.put` (application.py:74-89). -/
def Application.put (a : Application) (net : String → String → Response)
    (path : String) (module version : Option String) (https : Bool) :
    Except UrlError (Option Response) :=
  (a.logged_request net "put" path module version https).map (fun _ => none)

/-- `Application.delete` (application.py:91-106). -/
def Application.delete (a : Application) (net : String → String → Response)
    (path : String) (module version : Option String) (https : Bool) :
    Except UrlError (Option Response) :=
  (a.logged_request net "delete" path module version https).map (fun _ => none)

/-- C9: on every call that completes, the public `get`, `post`, `put` and
`delete` methods of `Application` return `None` — each delegates to
`logged_request` but drops its result — even though `logged_request` itself
returns the HTTP response object. -/
theorem app_methods_return_none (a : Application) (net : String → String → Response)
    (path : String) (module version : Option String) (https : Bool) (url : String)
    (hurl : a.build_url path module version https = Except.ok url) :
    a.get net path module version https = Except.ok none ∧
    a.post net path module version https = Except.ok none ∧
    a.put net path module version https = Except.ok none ∧
    a.delete net path module version https = Except.ok none ∧
    a.logged_request net "get" path module version https = Except.ok (net "get" url) ∧
    a.logged_request net "post" path module version https = Except.ok (net "post" url) ∧
    a.logged_request net "put" path module version https = Except.ok (net "put" url) ∧
    a.logged_request net "delete" path module version https =
      Except.ok (net "delete" url) := by
  refine ⟨?_, ?_, ?_, ?_, ?_, ?_, ?_, ?_⟩ <;>
    simp only [Application.get, Application.post, Application.put, Application.delete,
      Application.logged_request, hurl] <;> rfl

/-- Witness for C9 on the one-version configuration with a constant network
oracle. -/
theorem app_methods_return_none_witness :
    (Application.mk "appx" sampleBuilder).get (fun _ _ => ⟨200, "ok"⟩) "/x"
      (some "mod") (some "v1") false = Except.ok none ∧
    (Application.mk "appx" sampleBuilder).logged_request (fun _ _ => ⟨200, "ok"⟩)
      "get" "/x" (some "mod") (some "v1") false = Except.ok ⟨200, "ok"⟩ := by
  have h := app_methods_return_none (Application.mk "appx" sampleBuilder)
    (fun _ _ => ⟨200, "ok"⟩) "/x" (some "mod") (some "v1") false
    "http://h:8080/x" (by decide)
  exact ⟨h.1, h.2.2.2.2.1⟩

/-! ### The queue-existence handler (taskqueue.py) -/

/-- Result of one platform `Queue.add` call: success, the narrow
`UnknownQueueError`, or any other platform exception (with a description). -/
inductive AddResult
  | success
  | unknownQueue
  | otherError (e : String)
deriving DecidableEq, Repr

/-- The webapp2 response state mutated by the handler: HTTP status plus the
results accumulated so far. -/
structure RespState where
  status : Nat
  queues : List String
  existsFlags : List Bool
deriving DecidableEq, Repr

/-- One queue block of `QueueHandler.get` (taskqueue.py:45-73): the queue name
is appended to the results before the enqueue attempt; a successful add
records True, `UnknownQueueError` is caught, sets status 404 and records
False, and any other platform error propagates. -/
def attemptAdd (s : RespState) (q : String) (r : AddResult) :
    Except (String × RespState) RespState :=
  match r with
  | AddResult.success => Except.ok ⟨s.status, s.queues ++ [q], s.existsFlags ++ [true]⟩
  | AddResult.unknownQueue => Except.ok ⟨404, s.queues ++ [q], s.existsFlags ++ [false]⟩
  | AddResult.otherError e => Except.error (e, ⟨s.status, s.queues ++ [q], s.existsFlags⟩)

/-- Outcome of `QueueHandler.get`: either the handler completed and wrote the
JSON results payload, or a platform exception propagated before the payload
was written. -/
inductive HandlerOutcome
  | completed (s : RespState)
  | propagated (e : String) (s : RespState)
deriving DecidableEq, Repr

/-- taskqueue.py:31. -/
def PUSH_QUEUE_NAME : String := "hawkeyepython-PushQueue-0"

/-- taskqueue.py:33. -/
def PULL_QUEUE_NAME : String := "hawkeyepython-PullQueue-0"

/-- taskqueue.py:24. -/
def DEFAULT_PUSH_QUEUE : String := "default"

/-- `QueueHandler.get` (taskqueue.py:41-75), with the outcome of the three
platform enqueue attempts given by the oracle values `r1 r2 r3`: the status
starts at 200, the three attempts run in order against the literal "default",
`DEFAULT_PUSH_QUEUE` and `PULL_QUEUE_NAME`, and finally the JSON payload is
written. -/
def queueHandlerGet (r1 r2 r3 : AddResult) : HandlerOutcome :=
  match attemptAdd ⟨200, [], []⟩ "default" r1 with
  | Except.error (e, s) => HandlerOutcome.propagated e s
  | Except.ok s1 =>
    match attemptAdd s1 DEFAULT_PUSH_QUEUE r2 with
    | Except.error (e, s) => HandlerOutcome.propagated e s
    | Except.ok s2 =>
      match attemptAdd s2 PULL_QUEUE_NAME r3 with
      | Except.error (e, s) => HandlerOutcome.propagated e s
      | Except.ok s3 => HandlerOutcome.completed s3

/-- Whether a platform add attempt succeeded. -/
def AddResult.isSuccess : AddResult → Bool
  | AddResult.success => true
  | _ => false

/-- Whether a platform add attempt raised something other than the
unknown-queue error. -/
def AddResult.isOther : AddResult → Bool
  | AddResult.otherError _ => true
  | _ => false

/-- C8: in `QueueHandler.get`, an unknown-queue error on an enqueue attempt is
caught exactly, sets HTTP status 404, records exists=false for that queue, and
the JSON payload is still written; any other platform error propagates out of
the handler uncaught (no payload written). -/
theorem queue_handler_narrow_catch (r1 r2 r3 : AddResult) :
    (r1.isOther = false → r2.isOther = false → r3.isOther = false →
      queueHandlerGet r1 r2 r3 = HandlerOutcome.completed
        ⟨if r1 = AddResult.unknownQueue ∨ r2 = AddResult.unknownQueue ∨
            r3 = AddResult.unknownQueue then 404 else 200,
         ["default", DEFAULT_PUSH_QUEUE, PULL_QUEUE_NAME],
         [r1.isSuccess, r2.isSuccess, r3.isSuccess]⟩) ∧
    (∀ e, r1 = AddResult.otherError e →
      queueHandlerGet r1 r2 r3 = HandlerOutcome.propagated e ⟨200, ["default"], []⟩) ∧
    (∀ e, r1.isOther = false → r2 = AddResult.otherError e →
      queueHandlerGet r1 r2 r3 = HandlerOutcome.propagated e
        ⟨if r1 = AddResult.unknownQueue then 404 else 200,
         ["default", DEFAULT_PUSH_QUEUE], [r1.isSuccess]⟩) ∧
    (∀ e, r1.isOther = false → r2.isOther = false → r3 = AddResult.otherError e →
      queueHandlerGet r1 r2 r3 = HandlerOutcome.propagated e
        ⟨if r1 = AddResult.unknownQueue ∨ r2 = AddResult.unknownQueue then 404 else 200,
         ["default", DEFAULT_PUSH_QUEUE, PULL_QUEUE_NAME],
         [r1.isSuccess, r2.isSuccess]⟩) := by
  cases r1 <;> cases r2 <;> cases r3 <;>
    simp [queueHandlerGet, attemptAdd, AddResult.isSuccess, AddResult.isOther,
      DEFAULT_PUSH_QUEUE, PULL_QUEUE_NAME]

/-- Witness for C8: attempts succeed, raise unknown-queue, succeed; the
handler completes with status 404, exists flags true/false/true. -/
theorem queue_handler_narrow_catch_witness :
    queueHandlerGet AddResult.success AddResult.unknownQueue AddResult.success =
      HandlerOutcome.completed
        ⟨404, ["default", "default", "hawkeyepython-PullQueue-0"],
         [true, false, true]⟩ :=
  ((queue_handler_narrow_catch AddResult.success AddResult.unknownQueue
      AddResult.success).1 rfl rfl rfl).trans (by decide)

/-! ### Counting default versions per module -/

theorem count_module_flagged (avs : List AppVersion) (m : String) :
    ((avs.filter (fun v => v.is_default_for_module)).map AppVersion.module).count m =
      (avs.filter (fun v => v.is_default_for_module && v.module == m)).length := by
  rw [List.count_eq_countP, List.countP_map, List.countP_filter,
    List.countP_eq_length_filter]
  apply congrArg List.length
  apply List.filter_congr
  intro v _
  simp [Bool.and_comm]

theorem length_eq_sum_count_over (l : List String) (S : Finset String)
    (hsub : ∀ x ∈ l, x ∈ S) : l.length = S.sum (fun x => l.count x) := by
  have h1 : (l.toFinset).sum (fun a => l.count a) = l.length := by
    have h := Multiset.toFinset_sum_count_eq (l : Multiset String)
    simpa [Multiset.coe_count] using h
  rw [← h1]
  apply Finset.sum_subset
  · intro x hx
    exact hsub x (List.mem_toFinset.mp hx)
  · intro x _ hx
    exact List.count_eq_zero.mpr (fun hmem => hx (List.mem_toFinset.mpr hmem))

theorem flagged_length_eq_sum (avs : List AppVersion) :
    (avs.filter (fun v => v.is_default_for_module)).length =
      ((avs.map AppVersion.module).toFinset).sum
        (fun m => (avs.filter
          (fun v => v.is_default_for_module && v.module == m)).length) := by
  have hlen : (avs.filter (fun v => v.is_default_for_module)).length =
      ((avs.filter (fun v => v.is_default_for_module)).map AppVersion.module).length :=
    (List.length_map _ _).symm
  rw [hlen, length_eq_sum_count_over _ ((avs.map AppVersion.module).toFinset) ?hsub]
  · apply Finset.sum_congr rfl
    intro m _
    exact count_module_flagged avs m
  case hsub =>
    intro x hx
    obtain ⟨v, hv, rfl⟩ := List.mem_map.mp hx
    exact List.mem_toFinset.mpr (List.mem_map.mpr ⟨v, List.mem_of_mem_filter hv, rfl⟩)

/-- C4 counterexample data: module "m" carries two default-flagged versions
while module "n" carries none, so the two counts balance. -/
def dupA : AppVersion := ⟨"appx", "m", "v1", "http://h1", "https://h1", true, false⟩

/-- Second default-flagged version of module "m". -/
def dupB : AppVersion := ⟨"appx", "m", "v2", "http://h2", "https://h2", true, false⟩

/-- A version of module "n" with no default flag. -/
def dupC : AppVersion := ⟨"appx", "n", "v3", "http://h3", "https://h3", false, false⟩

/-- Like dupC but default-flagged, restoring the amended hypothesis. -/
def dupCf : AppVersion := ⟨"appx", "n", "v3", "http://h3", "https://h3", true, false⟩

/-- C4 counterexample: this version list has two versions flagged
default-for-module with the same module name "m", yet `AppURLBuilder`
construction succeeds without raising: module "n" lacks a default, which
masks the duplicate in the count comparison of `__init__`. -/
theorem make_duplicate_default_counterexample :
    2 ≤ ([dupA, dupB, dupC].filter
        (fun v => v.is_default_for_module && v.module == "m")).length ∧
    AppURLBuilder.make [dupA, dupB, dupC] "py" =
      Except.ok ⟨"py", builtDict [dupA, dupB, dupC]⟩ :=
  ⟨by decide, by decide⟩

/-- C4 (amended): for every version list in which some module name has two or
more versions flagged default-for-module AND every module appearing in the
list has at least one, construction fails with `ImproperVersionsList`.  (The
original claim omitted the second condition; a duplicate can be masked by a
module with no default, as the recorded counterexample shows.) -/
theorem make_improper_of_duplicate_default (avs : List AppVersion) (lang : String)
    (m : String) (hm : m ∈ avs.map AppVersion.module)
    (h2 : 2 ≤ (avs.filter (fun v => v.is_default_for_module && v.module == m)).length)
    (hall : ∀ m' ∈ avs.map AppVersion.module,
      1 ≤ (avs.filter (fun v => v.is_default_for_module && v.module == m')).length) :
    ∃ msg, AppURLBuilder.make avs lang =
      Except.error (InitError.improperVersionsList msg) := by
  apply (make_eq_error_iff avs lang).mpr
  intro heq
  have hcard : (avs.map AppVersion.module).toFinset.card <
      (avs.filter (fun v => v.is_default_for_module)).length := by
    rw [flagged_length_eq_sum avs, Finset.card_eq_sum_ones]
    apply Finset.sum_lt_sum
    · intro i hi
      exact hall i (List.mem_toFinset.mp hi)
    · exact ⟨m, List.mem_toFinset.mpr hm, lt_of_lt_of_le one_lt_two h2⟩
  rw [List.card_toFinset] at hcard
  omega

/-- Witness for the amended C4: both modules have defaults and module "m" has
two, so construction raises. -/
theorem make_improper_of_duplicate_default_witness :
    AppURLBuilder.make [dupA, dupB, dupCf] "py" =
      Except.error (InitError.improperVersionsList
        "Some of modules doesn\x27t have default version") := by
  obtain ⟨msg, hm⟩ := make_improper_of_duplicate_default [dupA, dupB, dupCf] "py" "m"
    (by decide) (by decide) (by decide)
  have hc : AppURLBuilder.make [dupA, dupB, dupCf] "py" =
      Except.error (InitError.improperVersionsList
        "Some of modules doesn\x27t have default version") := by decide
  rw [hm] at hc
  rw [hm, Except.error.inj hc]

/-! ### Dot-free names and key-shape separation

The three alias shapes are distinguished by their number of '.' characters as
soon as the underlying names are dot-free. -/

/-- Number of '.' characters of a string. -/
def dots (s : String) : Nat := s.data.count '.'

theorem dots_full_name (v : AppVersion) (h1 : '.' ∉ v.app_id.data)
    (h2 : '.' ∉ v.module.data) (h3 : '.' ∉ v.version.data) :
    dots v.full_name = 2 := by
  unfold dots AppVersion.full_name get_version_alias
  simp [List.count_append, List.count_eq_zero.mpr h1, List.count_eq_zero.mpr h2,
    List.count_eq_zero.mpr h3]

theorem dots_module_alias (a m : String) (h1 : '.' ∉ a.data) (h2 : '.' ∉ m.data) :
    dots (get_version_alias a (some m) none) = 1 := by
  unfold dots get_version_alias
  simp [List.count_append, List.count_eq_zero.mpr h1, List.count_eq_zero.mpr h2]

theorem dots_app_alias (a : String) (h : '.' ∉ a.data) :
    dots (get_version_alias a none none) = 0 := by
  unfold dots get_version_alias
  exact List.count_eq_zero.mpr h

theorem ne_of_dots_ne (s t : String) (h : dots s ≠ dots t) : s ≠ t :=
  fun heq => h (by rw [heq])

theorem append_dot_inj :
    ∀ (l1 : List Char) (r1 : List Char) (l2 : List Char) (r2 : List Char),
      '.' ∉ l1 → '.' ∉ l2 → l1 ++ '.' :: r1 = l2 ++ '.' :: r2 →
      l1 = l2 ∧ r1 = r2 := by
  intro l1
  induction l1 with
  | nil =>
    intro r1 l2 r2 _ h2 heq
    cases l2 with
    | nil => simpa using heq
    | cons b bs =>
      rw [List.nil_append, List.cons_append] at heq
      injection heq with hb _
      rw [← hb] at h2
      exact absurd (List.mem_cons_self _ _) h2
  | cons a as ih =>
    intro r1 l2 r2 h1 h2 heq
    cases l2 with
    | nil =>
      rw [List.nil_append, List.cons_append] at heq
      injection heq with hb _
      rw [hb] at h1
      exact absurd (List.mem_cons_self _ _) h1
    | cons b bs =>
      rw [List.cons_append, List.cons_append] at heq
      injection heq with hb ht
      obtain ⟨hl, hr⟩ := ih r1 bs r2
        (fun hc => h1 (List.mem_cons_of_mem _ hc))
        (fun hc => h2 (List.mem_cons_of_mem _ hc)) ht
      exact ⟨by rw [hb, hl], hr⟩

theorem module_alias_inj (m1 a1 m2 a2 : String)
    (hm1 : '.' ∉ m1.data) (hm2 : '.' ∉ m2.data)
    (heq : get_version_alias a1 (some m1) none = get_version_alias a2 (some m2) none) :
    m1 = m2 ∧ a1 = a2 := by
  unfold get_version_alias at heq
  have hdata : m1.data ++ '.' :: a1.data = m2.data ++ '.' :: a2.data := by
    have h := congrArg String.data heq
    simpa [String.data_append] using h
  obtain ⟨hl, hr⟩ := append_dot_inj m1.data a1.data m2.data a2.data hm1 hm2 hdata
  exact ⟨String.ext hl, String.ext hr⟩

theorem filter_length_one_unique {p : AppVersion → Bool} {l : List AppVersion}
    (h : (l.filter p).length = 1) :
    ∀ x ∈ l, p x = true → ∀ y ∈ l, p y = true → x = y := by
  obtain ⟨a, ha⟩ := List.length_eq_one.mp h
  intro x hx hpx y hy hpy
  have hx' : x ∈ l.filter p := List.mem_filter.mpr ⟨hx, hpx⟩
  have hy' : y ∈ l.filter p := List.mem_filter.mpr ⟨hy, hpy⟩
  rw [ha] at hx' hy'
  rw [List.mem_singleton.mp hx', List.mem_singleton.mp hy']

theorem make_ok_inv (avs : List AppVersion) (lang : String) (b : AppURLBuilder)
    (hmk : AppURLBuilder.make avs lang = Except.ok b) : b = ⟨lang, builtDict avs⟩ := by
  by_cases h : (avs.map AppVersion.module).dedup.length =
      (avs.filter (fun v => v.is_default_for_module)).length
  · rw [make_ok_dict avs lang h] at hmk
    exact (Except.ok.inj hmk).symm
  · rw [make_eq_error_of_ne avs lang h] at hmk
    cases hmk

/-- C6 (amended): provided no (app, module, version) name contains a '.', no
two versions share the same full key, every module name has exactly one
default-flagged version and every application has at most one app-default
version, the alias mapping maps each version's full key to that version, each
module-default key to the module's default-flagged version, and each
app-default key to the version that is both default-for-module and in the
default module; the lookup key shape is selected by which arguments are
given, as the three `get_version_alias` argument shapes below.  (Without
those conditions a later insert overwrites an earlier key, as the recorded
counterexample shows.) -/
theorem versions_dict_contents (avs : List AppVersion) (lang : String)
    (b : AppURLBuilder) (hmk : AppURLBuilder.make avs lang = Except.ok b)
    (hdf : ∀ v ∈ avs, '.' ∉ v.app_id.data ∧ '.' ∉ v.module.data ∧ '.' ∉ v.version.data)
    (hfull : (avs.map AppVersion.full_name).Nodup)
    (huniq : ∀ m ∈ avs.map AppVersion.module,
      (avs.filter (fun v => v.is_default_for_module && v.module == m)).length = 1)
    (happ : (((avs.filter (fun v => v.is_default_for_module)).filter
        (fun v => v.is_default_module)).map AppVersion.app_id).Nodup) :
    (∀ v ∈ avs, dictGet b.versions_dict
        (get_version_alias v.app_id (some v.module) (some v.version)) = some v) ∧
    (∀ v ∈ avs, v.is_default_for_module = true →
      dictGet b.versions_dict (get_version_alias v.app_id (some v.module) none) = some v) ∧
    (∀ v ∈ avs, v.is_default_for_module = true → v.is_default_module = true →
      dictGet b.versions_dict (get_version_alias v.app_id none none) = some v) := by
  obtain rfl : b = ⟨lang, builtDict avs⟩ := make_ok_inv avs lang b hmk
  have hsub : ∀ w ∈ avs.filter (fun v => v.is_default_for_module), w ∈ avs :=
    fun w hw => List.mem_of_mem_filter hw
  have hsub2 : ∀ w ∈ (avs.filter (fun v => v.is_default_for_module)).filter
      (fun v => v.is_default_module), w ∈ avs :=
    fun w hw => hsub w (List.mem_of_mem_filter hw)
  refine ⟨?_, ?_, ?_⟩
  · -- full keys
    intro v hv
    obtain ⟨ha, hm, hver⟩ := hdf v hv
    show dictGet (builtDict avs) v.full_name = some v
    unfold builtDict
    rw [dictGet_insertAll_of_not_mem _ _ _ _ ?happ_ne, dictGet_insertAll_of_not_mem _ _ _ _ ?hmod_ne]
    case happ_ne =>
      intro w hw
      obtain ⟨hwa, _, _⟩ := hdf w (hsub2 w hw)
      exact ne_of_dots_ne _ _ (by rw [dots_app_alias w.app_id hwa, dots_full_name v ha hm hver]; omega)
    case hmod_ne =>
      intro w hw
      obtain ⟨hwa, hwm, _⟩ := hdf w (hsub w hw)
      exact ne_of_dots_ne _ _ (by rw [dots_module_alias w.app_id w.module hwa hwm, dots_full_name v ha hm hver]; omega)
    exact dictGet_insertAll_of_unique AppVersion.full_name avs [] v.full_name v hv rfl
      (fun w hw heq => List.inj_on_of_nodup_map hfull hw hv heq)
  · -- module-default keys
    intro v hv hflag
    obtain ⟨ha, hm, _⟩ := hdf v hv
    show dictGet (builtDict avs) (get_version_alias v.app_id (some v.module) none) = some v
    unfold builtDict
    rw [dictGet_insertAll_of_not_mem _ _ _ _ ?happ_ne2]
    case happ_ne2 =>
      intro w hw
      obtain ⟨hwa, _, _⟩ := hdf w (hsub2 w hw)
      exact ne_of_dots_ne _ _ (by rw [dots_app_alias w.app_id hwa, dots_module_alias v.app_id v.module ha hm]; omega)
    have hlen := huniq v.module (List.mem_map.mpr ⟨v, hv, rfl⟩)
    have huv := filter_length_one_unique hlen
    apply dictGet_insertAll_of_unique _ _ _ _ v (List.mem_filter.mpr ⟨hv, hflag⟩) rfl
    intro w hw heq
    obtain ⟨hwmem, hwflag⟩ := List.mem_filter.mp hw
    obtain ⟨_, hwm, _⟩ := hdf w hwmem
    obtain ⟨hmeq, haeq⟩ := module_alias_inj w.module w.app_id v.module v.app_id hwm hm heq
    exact huv w hwmem (by simp [hwflag, hmeq]) v hv (by simp [hflag])
  · -- app-default keys
    intro v hv hflag hdefm
    show dictGet (builtDict avs) (get_version_alias v.app_id none none) = some v
    unfold builtDict
    apply dictGet_insertAll_of_unique _ _ _ _ v
      (List.mem_filter.mpr ⟨List.mem_filter.mpr ⟨hv, hflag⟩, hdefm⟩) rfl
    intro w hw heq
    have heq' : w.app_id = v.app_id := heq
    exact List.inj_on_of_nodup_map happ hw
      (List.mem_filter.mpr ⟨List.mem_filter.mpr ⟨hv, hflag⟩, hdefm⟩) heq'

/-- C6 counterexample data: two versions sharing the (version, module, app)
triple with different URLs; only the second is default-flagged. -/
def twinA : AppVersion := ⟨"appx", "m", "v1", "http://h1", "https://h1", false, false⟩

/-- The overwriting twin. -/
def twinB : AppVersion := ⟨"appx", "m", "v1", "http://h2", "https://h2", true, false⟩

/-- C6 counterexample: construction succeeds on [twinA, twinB], but the full
key of twinA resolves to twinB (the later dict insert overwrote it), so the
mapping does not map each input version's full key to that version. -/
theorem versions_dict_contents_counterexample :
    twinA ∈ [twinA, twinB] ∧ twinA ≠ twinB ∧
    AppURLBuilder.make [twinA, twinB] "py" =
      Except.ok ⟨"py", builtDict [twinA, twinB]⟩ ∧
    dictGet (builtDict [twinA, twinB])
      (get_version_alias twinA.app_id (some twinA.module) (some twinA.version)) =
      some twinB :=
  ⟨by decide, by decide, by decide, by decide⟩

/-- Witness for the amended C6 on the one-version configuration: all three
key shapes resolve to the version. -/
theorem versions_dict_contents_witness :
    dictGet sampleBuilder.versions_dict "v1.mod.appx" = some sampleVersion ∧
    dictGet sampleBuilder.versions_dict "mod.appx" = some sampleVersion ∧
    dictGet sampleBuilder.versions_dict "appx" = some sampleVersion := by
  have h := versions_dict_contents [sampleVersion] "py" sampleBuilder
    (make_ok_dict [sampleVersion] "py" (by decide)) (by decide) (by decide)
    (by decide) (by decide)
  exact ⟨h.1 sampleVersion (by decide),
    h.2.1 sampleVersion (by decide) (by decide),
    h.2.2 sampleVersion (by decide) (by decide) (by decide)⟩

/-- C7 (amended): resolving with module=None and version=None (the key is the
bare app id) returns the application's default version — the unique version
that is both default-for-module and in the default module — whenever the
application has exactly one such version; and when all configured names and
the queried app id are dot-free and the application has no such version, it
raises `UnknownVersion`.  (Without the dot-free condition the second half
fails: a dotted app id can collide with another application's module-default
alias, as the recorded counterexample shows.) -/
theorem resolve_app_default (avs : List AppVersion) (lang : String)
    (b : AppURLBuilder) (hmk : AppURLBuilder.make avs lang = Except.ok b)
    (a path path2 : String) (https : Bool)
    (hfmt : pyFormatLang path b.language = Except.ok path2) :
    (∀ v : AppVersion,
      avs.filter (fun w => w.is_default_for_module && w.is_default_module &&
        w.app_id == a) = [v] →
      b.build_url a path none none https =
        Except.ok (rstripSlash (if https then v.https_url else v.http_url) ++ "/" ++
          lstripSlash path2)) ∧
    ((∀ v ∈ avs, '.' ∉ v.app_id.data ∧ '.' ∉ v.module.data ∧ '.' ∉ v.version.data) →
      '.' ∉ a.data →
      avs.filter (fun w => w.is_default_for_module && w.is_default_module &&
        w.app_id == a) = [] →
      b.build_url a path none none https =
        Except.error (UrlError.unknownVersion (unknownMsg none none b.versions_dict))) := by
  obtain rfl : b = ⟨lang, builtDict avs⟩ := make_ok_inv avs lang b hmk
  constructor
  · intro v hfv
    have hvmem : v ∈ avs.filter (fun w => w.is_default_for_module &&
        w.is_default_module && w.app_id == a) := by rw [hfv]; exact List.mem_singleton.mpr rfl
    obtain ⟨hva, hvp⟩ := List.mem_filter.mp hvmem
    simp only [Bool.and_eq_true, beq_iff_eq] at hvp
    obtain ⟨⟨hvflag, hvdefm⟩, hvapp⟩ := hvp
    apply build_url_ok _ a path none none https path2 v hfmt
    show dictGet (builtDict avs) (get_version_alias a none none) = some v
    unfold builtDict
    apply dictGet_insertAll_of_unique _ _ _ _ v
      (List.mem_filter.mpr ⟨List.mem_filter.mpr ⟨hva, hvflag⟩, hvdefm⟩) hvapp
    intro w hw heq
    have hwapp : w.app_id = a := heq
    obtain ⟨hwmem1, hwdefm⟩ := List.mem_filter.mp hw
    obtain ⟨hwmem, hwflag⟩ := List.mem_filter.mp hwmem1
    have hwin : w ∈ avs.filter (fun u => u.is_default_for_module &&
        u.is_default_module && u.app_id == a) :=
      List.mem_filter.mpr ⟨hwmem, by simp [hwflag, hwdefm, hwapp]⟩
    rw [hfv] at hwin
    exact List.mem_singleton.mp hwin
  · intro hdf hadf hemp
    apply build_url_unknown _ a path none none https path2 hfmt
    show dictGet (builtDict avs) (get_version_alias a none none) = none
    have hnone : ∀ w ∈ avs, ¬(w.is_default_for_module && w.is_default_module &&
        (w.app_id == a)) = true := List.filter_eq_nil_iff.mp hemp
    unfold builtDict
    rw [dictGet_insertAll_of_not_mem _ _ _ _ ?h3, dictGet_insertAll_of_not_mem _ _ _ _ ?h2,
      dictGet_insertAll_of_not_mem _ _ _ _ ?h1]
    · rfl
    case h1 =>
      intro w hw
      obtain ⟨hwa, hwm, hwv⟩ := hdf w hw
      apply ne_of_dots_ne
      have e1 := dots_full_name w hwa hwm hwv
      have e2 := dots_app_alias a hadf
      omega
    case h2 =>
      intro w hw
      obtain ⟨hwa, hwm, _⟩ := hdf w (List.mem_of_mem_filter hw)
      exact ne_of_dots_ne _ _ (by
        rw [dots_module_alias w.app_id w.module hwa hwm, dots_app_alias a hadf]; omega)
    case h3 =>
      intro w hw
      obtain ⟨hwmem1, hwdefm⟩ := List.mem_filter.mp hw
      obtain ⟨hwmem, hwflag⟩ := List.mem_filter.mp hwmem1
      intro heq
      have hwapp : w.app_id = a := heq
      exact hnone w hwmem (by simp [hwflag, hwdefm, hwapp])

/-- C7 counterexample data: application "m.x" exists (via colA) but has no
app-default version; application "x" has module "m" whose default alias key
is the string "m.x". -/
def colA : AppVersion := ⟨"m.x", "q", "vq", "http://hq", "https://hq", true, false⟩

/-- The module whose default alias collides with app id "m.x". -/
def colB : AppVersion := ⟨"x", "m", "vm", "http://hm", "https://hm", true, false⟩

/-- C7 counterexample: app "m.x" is present and has no default version, yet
resolving it with module=None, version=None does not raise UnknownVersion —
it returns the URL of app "x"'s module default, because the app-default key
"m.x" collides with the module-default alias of module "m" of app "x". -/
theorem resolve_app_default_counterexample :
    "m.x" ∈ [colA, colB].map AppVersion.app_id ∧
    [colA, colB].filter (fun w => w.is_default_for_module && w.is_default_module &&
      w.app_id == "m.x") = [] ∧
    AppURLBuilder.make [colA, colB] "py" =
      Except.ok ⟨"py", builtDict [colA, colB]⟩ ∧
    AppURLBuilder.build_url ⟨"py", builtDict [colA, colB]⟩ "m.x" "p" none none false =
      Except.ok "http://hm/p" :=
  ⟨by decide, by decide, by decide, by decide⟩

/-- A configuration whose only version is not in a default module, so its app
has no app-default version. -/
def noDef : AppVersion := ⟨"appy", "mody", "v1", "http://h", "https://h", true, false⟩

/-- Witness for the amended C7: the app-default of the one-version
configuration resolves, and the default-less dot-free configuration raises
UnknownVersion. -/
theorem resolve_app_default_witness :
    sampleBuilder.build_url "appx" "/x" none none false =
      Except.ok "http://h:8080/x" ∧
    AppURLBuilder.build_url ⟨"py", builtDict [noDef]⟩ "appy" "/x" none none false =
      Except.error (UrlError.unknownVersion (unknownMsg none none (builtDict [noDef]))) := by
  constructor
  · have h := (resolve_app_default [sampleVersion] "py" sampleBuilder
      (make_ok_dict [sampleVersion] "py" (by decide)) "appx" "/x" "/x" false rfl).1
      sampleVersion (by decide)
    exact h.trans (by decide)
  · exact (resolve_app_default [noDef] "py" ⟨"py", builtDict [noDef]⟩
      (make_ok_dict [noDef] "py" (by decide)) "appy" "/x" "/x" false rfl).2
      (by decide) (by decide) (by decide)

/-! ### Key counting (C3) -/

theorem count_module_flagged_zero (avs : List AppVersion) (m : String)
    (hm : m ∉ avs.map AppVersion.module) :
    (avs.filter (fun v => v.is_default_for_module && v.module == m)).length = 0 := by
  rw [List.length_eq_zero, List.filter_eq_nil_iff]
  intro v hv hp
  simp only [Bool.and_eq_true, beq_iff_eq] at hp
  exact hm (List.mem_map.mpr ⟨v, hv, hp.2⟩)

theorem flagged_length_eq_card (avs : List AppVersion)
    (huniq : ∀ m ∈ avs.map AppVersion.module,
      (avs.filter (fun v => v.is_default_for_module && v.module == m)).length = 1) :
    (avs.filter (fun v => v.is_default_for_module)).length =
      (avs.map AppVersion.module).toFinset.card := by
  rw [flagged_length_eq_sum avs, Finset.card_eq_sum_ones]
  apply Finset.sum_congr rfl
  intro m hm
  exact huniq m (List.mem_toFinset.mp hm)

theorem make_ok_of_unique_defaults (avs : List AppVersion) (lang : String)
    (huniq : ∀ m ∈ avs.map AppVersion.module,
      (avs.filter (fun v => v.is_default_for_module && v.module == m)).length = 1) :
    AppURLBuilder.make avs lang = Except.ok ⟨lang, builtDict avs⟩ :=
  make_ok_dict avs lang
    ((List.card_toFinset _).symm.trans (flagged_length_eq_card avs huniq).symm)

theorem flagged_modules_nodup (avs : List AppVersion)
    (huniq : ∀ m ∈ avs.map AppVersion.module,
      (avs.filter (fun v => v.is_default_for_module && v.module == m)).length = 1) :
    ((avs.filter (fun v => v.is_default_for_module)).map AppVersion.module).Nodup := by
  rw [List.nodup_iff_count_le_one]
  intro m
  rw [count_module_flagged avs m]
  by_cases hm : m ∈ avs.map AppVersion.module
  · rw [huniq m hm]
  · rw [count_module_flagged_zero avs m hm]
    omega

theorem flagged_modKey_nodup (avs : List AppVersion)
    (hdf : ∀ v ∈ avs, '.' ∉ v.app_id.data ∧ '.' ∉ v.module.data ∧ '.' ∉ v.version.data)
    (huniq : ∀ m ∈ avs.map AppVersion.module,
      (avs.filter (fun v => v.is_default_for_module && v.module == m)).length = 1) :
    ((avs.filter (fun v => v.is_default_for_module)).map
      (fun v => get_version_alias v.app_id (some v.module) none)).Nodup := by
  have hmn := flagged_modules_nodup avs huniq
  have hl : (avs.filter (fun v => v.is_default_for_module)).Nodup :=
    List.Nodup.of_map _ hmn
  apply List.Nodup.map_on ?inj hl
  case inj =>
    intro x hx y hy heq
    obtain ⟨_, hxm, _⟩ := hdf x (List.mem_of_mem_filter hx)
    obtain ⟨_, hym, _⟩ := hdf y (List.mem_of_mem_filter hy)
    obtain ⟨hmm, _⟩ := module_alias_inj x.module x.app_id y.module y.app_id hxm hym heq
    exact List.inj_on_of_nodup_map hmn hx hy hmm

/-- C3 (amended): for every nonempty version list with dot-free names in
which every module has exactly one version flagged default-for-module,
construction succeeds, and the alias mapping contains the full key of every
version and the module-default key of every module, totalling at least
(number of distinct modules) + 1 keys (plus optional app-default keys).
(The original claim fails for the empty list and for dotted names whose keys
collide, as the recorded counterexample shows.) -/
theorem make_key_count (avs : List AppVersion) (lang : String)
    (hne : avs ≠ [])
    (hdf : ∀ v ∈ avs, '.' ∉ v.app_id.data ∧ '.' ∉ v.module.data ∧ '.' ∉ v.version.data)
    (huniq : ∀ m ∈ avs.map AppVersion.module,
      (avs.filter (fun v => v.is_default_for_module && v.module == m)).length = 1) :
    AppURLBuilder.make avs lang = Except.ok ⟨lang, builtDict avs⟩ ∧
    (∀ v ∈ avs, v.full_name ∈ dictKeys (builtDict avs)) ∧
    (∀ v ∈ avs, v.is_default_for_module = true →
      get_version_alias v.app_id (some v.module) none ∈ dictKeys (builtDict avs)) ∧
    (avs.map AppVersion.module).toFinset.card + 1 ≤ (builtDict avs).length := by
  refine ⟨make_ok_of_unique_defaults avs lang huniq, ?_, ?_, ?_⟩
  · intro v hv
    unfold builtDict
    rw [mem_dictKeys_insertAll, mem_dictKeys_insertAll, mem_dictKeys_insertAll]
    exact Or.inl (Or.inl (Or.inr ⟨v, hv, rfl⟩))
  · intro v hv hflag
    unfold builtDict
    rw [mem_dictKeys_insertAll, mem_dictKeys_insertAll]
    exact Or.inl (Or.inr ⟨v, List.mem_filter.mpr ⟨hv, hflag⟩, rfl⟩)
  · have hnodup : (dictKeys (builtDict avs)).Nodup := by
      unfold builtDict
      apply nodup_dictKeys_insertAll
      apply nodup_dictKeys_insertAll
      apply nodup_dictKeys_insertAll
      exact List.nodup_nil
    have hfin : (dictKeys (builtDict avs)).toFinset =
        (((avs.map AppVersion.full_name).toFinset ∪
          ((avs.filter (fun v => v.is_default_for_module)).map
            (fun v => get_version_alias v.app_id (some v.module) none)).toFinset) ∪
          (((avs.filter (fun v => v.is_default_for_module)).filter
            (fun v => v.is_default_module)).map
            (fun v => get_version_alias v.app_id none none)).toFinset) := by
      unfold builtDict
      rw [toFinset_dictKeys_insertAll, toFinset_dictKeys_insertAll,
        toFinset_dictKeys_insertAll]
      simp [dictKeys]
    have hAB : Disjoint (avs.map AppVersion.full_name).toFinset
        ((avs.filter (fun v => v.is_default_for_module)).map
          (fun v => get_version_alias v.app_id (some v.module) none)).toFinset := by
      rw [Finset.disjoint_left]
      intro k hk1 hk2
      obtain ⟨v, hv, rfl⟩ := List.mem_map.mp (List.mem_toFinset.mp hk1)
      obtain ⟨w, hw, hwk⟩ := List.mem_map.mp (List.mem_toFinset.mp hk2)
      obtain ⟨hva, hvm, hvv⟩ := hdf v hv
      obtain ⟨hwa, hwm, _⟩ := hdf w (List.mem_of_mem_filter hw)
      have e1 := dots_full_name v hva hvm hvv
      have e2 := dots_module_alias w.app_id w.module hwa hwm
      rw [hwk] at e2
      omega
    have hcardB : ((avs.filter (fun v => v.is_default_for_module)).map
        (fun v => get_version_alias v.app_id (some v.module) none)).toFinset.card =
        (avs.map AppVersion.module).toFinset.card := by
      rw [List.toFinset_card_of_nodup (flagged_modKey_nodup avs hdf huniq),
        List.length_map, flagged_length_eq_card avs huniq]
    have hcardA : 1 ≤ (avs.map AppVersion.full_name).toFinset.card := by
      rcases avs with _ | ⟨v, rest⟩
      · exact absurd rfl hne
      · exact Finset.card_pos.mpr ⟨v.full_name,
          List.mem_toFinset.mpr (List.mem_map.mpr ⟨v, List.mem_cons_self _ _, rfl⟩)⟩
    have hlen : (dictKeys (builtDict avs)).toFinset.card = (builtDict avs).length := by
      rw [List.toFinset_card_of_nodup hnodup, length_dictKeys]
    have hsubset : ((avs.map AppVersion.full_name).toFinset ∪
        ((avs.filter (fun v => v.is_default_for_module)).map
          (fun v => get_version_alias v.app_id (some v.module) none)).toFinset) ⊆
        (dictKeys (builtDict avs)).toFinset := by
      rw [hfin]
      exact Finset.subset_union_left
    have hchain := Finset.card_le_card hsubset
    rw [Finset.card_union_of_disjoint hAB, hcardB] at hchain
    omega

/-- C3 counterexample data: dotted names making distinct keys collide. -/
def dotX : AppVersion := ⟨"b.c", "a", "x", "http://h1", "https://h1", true, false⟩

/-- Partner of dotX: same full key "x.a.b.c" and same module key "a.b.c". -/
def dotY : AppVersion := ⟨"c", "a.b", "x", "http://h2", "https://h2", true, false⟩

/-- C3 counterexample: every module of this list has exactly one
default-flagged version and construction succeeds, but the dotted names make
the two full keys coincide and the two module-default keys coincide, leaving
2 keys where the claim demands at least (2 modules) + 1 = 3.  (The claim also
fails at the empty list: 0 keys against a demanded minimum of 0 + 1.) -/
theorem make_key_count_counterexample :
    [dotX, dotY].map AppVersion.module = ["a", "a.b"] ∧
    ([dotX, dotY].filter
      (fun v => v.is_default_for_module && v.module == "a")).length = 1 ∧
    ([dotX, dotY].filter
      (fun v => v.is_default_for_module && v.module == "a.b")).length = 1 ∧
    AppURLBuilder.make [dotX, dotY] "py" =
      Except.ok ⟨"py", builtDict [dotX, dotY]⟩ ∧
    (builtDict [dotX, dotY]).length = 2 ∧
    ([dotX, dotY].map AppVersion.module).toFinset.card + 1 = 3 :=
  ⟨by decide, by decide, by decide, by decide, by decide, by decide⟩

/-- Witness for the amended C3 on the one-version configuration. -/
theorem make_key_count_witness :
    AppURLBuilder.make [sampleVersion] "py" =
      Except.ok ⟨"py", builtDict [sampleVersion]⟩ ∧
    ([sampleVersion].map AppVersion.module).toFinset.card + 1 ≤
      (builtDict [sampleVersion]).length := by
  have h := make_key_count [sampleVersion] "py" (by decide) (by decide) (by decide)
  exact ⟨h.1, h.2.2.2⟩

end Hawkeye
